import Mathlib

/-!
Verification of the crabst download-statistics reporter (src/main.rs).

Shallow embedding conventions:
- `chrono::NaiveDate` is modelled as `Int`, a day ordinal: consecutive calendar
  days differ by exactly 1 and the chronological order is the integer order.
- `u64` download counters are modelled as `Nat` (the sums involved are far from
  the 2^64 wrap in every scenario the program handles).
- `std::collections::HashMap` is modelled as an association list together with
  an insert-replace operation; only the key → value view (lookup, key set,
  multiset of values) of a hash map is observable, and all observations made by
  the program are order-insensitive (lookups and commutative sums), so this
  representation is faithful.
- The tokio scheduler in `handle_user_option` (`buffer_unordered(3)`) is
  modelled by the order in which the spawned tasks perform their insert into
  the shared map: the model takes an arbitrary completion order (an arbitrary
  permutation of the crate list) and the theorems quantify over it.
-/

namespace Crabst

/-- Error from the `crates_io_api` client, opaque to the program (it only
matches on `Ok` vs `Err`). Constructors follow the registry failure taxonomy. -/
inductive FetchError
  | network
  | not_found
  | rate_limited
deriving DecidableEq

/-- One raw registry record: downloads of one crate version on one day
(`crates_io_api::VersionDownloads`, consumed fields only). -/
structure VersionDownload where
  version : String
  date : Int
  downloads : Nat
deriving DecidableEq

/-- Payload of a successful `client.crate_downloads` call, consumed field only. -/
structure CrateDownloads where
  version_downloads : List VersionDownload
deriving DecidableEq

/-- One entry of the publisher's crate listing (`crates_io_api::Crate`,
consumed fields only): crate name and lifetime download counter. -/
structure Crate where
  name : String
  downloads : Nat
deriving DecidableEq

/-- Association-list model of `HashMap::insert`: the new binding replaces any
previous binding of the same key. -/
def mapInsert {α β : Type} [DecidableEq α] (m : List (α × β)) (k : α) (v : β) :
    List (α × β) :=
  (k, v) :: m.filter (fun e => !decide (e.1 = k))

/-- Association-list model of `HashMap::get`. -/
def mapFind? {α β : Type} [DecidableEq α] (m : List (α × β)) (k : α) : Option β :=
  (m.find? (fun e => decide (e.1 = k))).map Prod.snd

/-- Model of `map.get(k).unwrap_or(&d)`. -/
def mapFindD {α β : Type} [DecidableEq α] (m : List (α × β)) (k : α) (d : β) : β :=
  (mapFind? m k).getD d

/-- Model of `HashMap::keys`. -/
def mapKeys {α β : Type} (m : List (α × β)) : List α :=
  m.map Prod.fst

/-- Model of `HashMap::values`. -/
def mapValues {α β : Type} (m : List (α × β)) : List β :=
  m.map Prod.snd

/-- A crate's per-date aggregate, `HashMap<NaiveDate, u64>` in the source. -/
abbrev DateMap := List (Int × Nat)

/-- The shared result map, `HashMap<String, HashMap<NaiveDate, u64>>`. -/
abbrev DailyMap := List (String × DateMap)

/-- `main.rs` lines 145-156: the days-building loop of `handle_user_option`.
For `i in 0..n` it pushes the date `i` days before `today`
(`i.days().ago().as_date()`), then reverses the vector. -/
def dates_for_window (n : Nat) (today : Int) : List Int :=
  ((List.range n).map (fun i : Nat => today - (i : Int))).reverse

/-- `main.rs` lines 137-144: the `-l` option defaults to 1 day when absent;
the supplied value is used unchecked otherwise. -/
def last_n_day (l_opt : Option Nat) : Nat :=
  l_opt.getD 1

/-- The window `handle_user_option` actually reports on for a given `-l`
option value: the days-building loop run on `last_n_day`. -/
def window_for_option (l_opt : Option Nat) (today : Int) : List Int :=
  dates_for_window (last_n_day l_opt) today

theorem mapFind?_nil {α β : Type} [DecidableEq α] (k : α) :
    mapFind? ([] : List (α × β)) k = none := rfl

theorem mapFind?_cons {α β : Type} [DecidableEq α] (k : α) (v : β) (m : List (α × β))
    (x : α) :
    mapFind? ((k, v) :: m) x = if k = x then some v else mapFind? m x := by
  by_cases h : k = x <;> simp [mapFind?, List.find?_cons, h]

theorem find?_filter_out_ne {α β : Type} [DecidableEq α] (m : List (α × β))
    (k x : α) (h : x ≠ k) :
    (m.filter (fun e => !decide (e.1 = k))).find? (fun e => decide (e.1 = x))
      = m.find? (fun e => decide (e.1 = x)) := by
  induction m with
  | nil => rfl
  | cons e rest ih =>
    have hkx : ¬ k = x := fun hh => h hh.symm
    by_cases hek : e.1 = k
    · have hex : ¬ e.1 = x := by rw [hek]; exact fun hh => h hh.symm
      simp [List.filter_cons, hek, List.find?_cons, hex, hkx, ih]
    · by_cases hex : e.1 = x
      · simp [List.filter_cons, hek, List.find?_cons, hex, h]
      · simp [List.filter_cons, hek, List.find?_cons, hex, ih]

theorem mapFind?_insert_self {α β : Type} [DecidableEq α] (m : List (α × β))
    (k : α) (v : β) :
    mapFind? (mapInsert m k v) k = some v := by
  simp [mapFind?, mapInsert, List.find?_cons]

theorem mapFind?_insert_ne {α β : Type} [DecidableEq α] (m : List (α × β))
    (k : α) (v : β) (x : α) (h : x ≠ k) :
    mapFind? (mapInsert m k v) x = mapFind? m x := by
  have hkx : ¬ k = x := fun hh => h hh.symm
  simp [mapFind?, mapInsert, List.find?_cons, hkx, find?_filter_out_ne m k x h]

/-- Lookup in a map built by folding `mapInsert` of `F k` over a key list:
the last insert wins, and every insert for key `k` stores `F k`. -/
theorem mapFind?_foldInsert {α β : Type} [DecidableEq α] (keys : List α)
    (F : α → β) (m0 : List (α × β)) (k : α) :
    mapFind? (keys.foldl (fun m x => mapInsert m x (F x)) m0) k
      = if k ∈ keys then some (F k) else mapFind? m0 k := by
  induction keys generalizing m0 with
  | nil => simp
  | cons x xs ih =>
    simp only [List.foldl_cons, ih]
    by_cases hk : k ∈ xs
    · simp [hk]
    · by_cases hkx : k = x
      · subst hkx; simp [hk, mapFind?_insert_self]
      · simp [hk, hkx, mapFind?_insert_ne _ _ _ _ hkx]

theorem mem_mapKeys_iff {α β : Type} [DecidableEq α] (m : List (α × β)) (k : α) :
    k ∈ mapKeys m ↔ mapFind? m k ≠ none := by
  simp only [mapKeys, List.mem_map, mapFind?, Ne, Option.map_eq_none', List.find?_eq_none,
    decide_eq_true_eq]
  push_neg
  tauto

theorem mapKeys_insert {α β : Type} [DecidableEq α] (m : List (α × β)) (k : α)
    (v : β) :
    mapKeys (mapInsert m k v) = k :: (mapKeys m).filter (fun x => !decide (x = k)) := by
  induction m with
  | nil => rfl
  | cons e rest ih =>
    by_cases hek : e.1 = k <;>
      simp_all [mapKeys, mapInsert, List.filter_cons, hek]

theorem mapKeys_nodup_insert {α β : Type} [DecidableEq α] (m : List (α × β))
    (k : α) (v : β) (h : (mapKeys m).Nodup) :
    (mapKeys (mapInsert m k v)).Nodup := by
  rw [mapKeys_insert]
  refine List.Nodup.cons ?_ (h.filter _)
  intro hk
  have := List.of_mem_filter hk
  simp at this

theorem mapKeys_nodup_foldInsert {α β : Type} [DecidableEq α] (keys : List α)
    (F : α → β) (m0 : List (α × β)) (h : (mapKeys m0).Nodup) :
    (mapKeys (keys.foldl (fun m x => mapInsert m x (F x)) m0)).Nodup := by
  induction keys generalizing m0 with
  | nil => exact h
  | cons x xs ih => exact ih _ (mapKeys_nodup_insert _ _ _ h)

theorem dates_for_window_length (n : Nat) (today : Int) :
    (dates_for_window n today).length = n := by
  rw [dates_for_window, List.length_reverse, List.length_map, List.length_range]

theorem dates_for_window_succ (n : Nat) (today : Int) :
    dates_for_window (n + 1) today = (today - n) :: dates_for_window n today := by
  simp [dates_for_window, List.range_succ]

theorem dates_for_window_head? (n : Nat) (today : Int) :
    (dates_for_window (n + 1) today).head? = some (today - n) := by
  rw [dates_for_window_succ]; rfl

theorem dates_for_window_chain (n : Nat) (today : Int) :
    List.Chain' (fun a b => b = a + 1) (dates_for_window n today) := by
  induction n with
  | zero => simp [dates_for_window]
  | succ m ih =>
    rw [dates_for_window_succ]
    cases m with
    | zero => simp [dates_for_window]
    | succ p =>
      rw [List.chain'_cons']
      refine ⟨?_, ih⟩
      intro y hy
      rw [dates_for_window_head?] at hy
      simp only [Option.mem_def, Option.some.injEq] at hy
      subst hy
      push_cast
      ring

theorem dates_for_window_getLast? (n : Nat) (today : Int) (h : 1 ≤ n) :
    (dates_for_window n today).getLast? = some today := by
  cases n with
  | zero => omega
  | succ m =>
    rw [dates_for_window, List.getLast?_reverse, List.range_succ_eq_map]
    simp

/-- C5: for every `n ≥ 1` and reference day, the days-building loop of
`handle_user_option` produces exactly `n` dates, consecutive (each entry one
day before the next, hence strictly ascending), ending at the reference day. -/
theorem C5_window_shape (n : Nat) (today : Int) (h : 1 ≤ n) :
    (dates_for_window n today).length = n
    ∧ List.Chain' (fun a b => b = a + 1) (dates_for_window n today)
    ∧ List.Pairwise (fun a b => a < b) (dates_for_window n today)
    ∧ (dates_for_window n today).getLast? = some today := by
  refine ⟨dates_for_window_length n today, dates_for_window_chain n today, ?_,
    dates_for_window_getLast? n today h⟩
  have hlt : List.Chain' (fun a b : Int => a < b) (dates_for_window n today) :=
    (dates_for_window_chain n today).imp (fun hab => by omega)
  exact List.chain'_iff_pairwise.mp hlt

/-- Witness for C5 at `n = 3`, `today = 10`. -/
theorem C5_window_shape_witness :
    (dates_for_window 3 10).length = 3
    ∧ List.Chain' (fun a b => b = a + 1) (dates_for_window 3 10)
    ∧ List.Pairwise (fun a b => a < b) (dates_for_window 3 10)
    ∧ (dates_for_window 3 10).getLast? = some 10 :=
  C5_window_shape 3 10 (by decide)

/-- C6 counterexample: a requested window length of 0 is not rejected — the
days-building loop simply produces the empty window and the program carries
on (there is no error path at all in this code). -/
theorem C6_counterexample : window_for_option (some 0) 0 = [] := rfl

/-- `main.rs` lines 387-394: the per-date count computed inside
`get_crate_downloads_multi` — on `Ok`, the fold of `downloads` over the
version records whose `date` equals `d`; on `Err`, 0. -/
def version_downloads_on (cd : Except FetchError CrateDownloads) (d : Int) : Nat :=
  match cd with
  | .ok downloads =>
      (downloads.version_downloads.filter (fun vd => vd.date == d)).foldl
        (fun init crate_download => init + crate_download.downloads) 0
  | _ => 0

/-- `main.rs` lines 379-398, `get_crate_downloads_multi`: for each date of the
window, insert the per-date count into a fresh map. -/
def get_crate_downloads_multi (cd : Except FetchError CrateDownloads)
    (dates : List Int) : DateMap :=
  dates.foldl (fun result d => mapInsert result d (version_downloads_on cd d)) []

/-- `main.rs` lines 227-231, `handle_crate_option`: itertools `group_by` over
the raw records keyed by `date` — one output pair per maximal run of
consecutive equal-date records, holding the run's key and the fold of its
`downloads`. -/
def version_downloads_grouped (vds : List VersionDownload) : List (Int × Nat) :=
  (vds.splitBy (fun a b => a.date == b.date)).map
    (fun group =>
      ((group.head?.map (fun vd => vd.date)).getD 0,
        group.foldl (fun init gvd => init + gvd.downloads) 0))

theorem foldl_add_map {α : Type} (f : α → Nat) (l : List α) (n : Nat) :
    l.foldl (fun init x => init + f x) n = n + (l.map f).sum := by
  induction l generalizing n with
  | nil => simp
  | cons x xs ih => simp [ih, Nat.add_assoc]

/-- C1: the per-date accumulation of `get_crate_downloads_multi` maps every
window date to the sum of the `downloads` of every raw record carrying that
date (across all versions, 0 when none matches), and maps no date outside the
window. -/
theorem C1_multi_aggregation (events : List VersionDownload) (dates : List Int)
    (d : Int) :
    (d ∈ dates →
      mapFind? (get_crate_downloads_multi (.ok ⟨events⟩) dates) d
        = some (((events.filter (fun vd => vd.date == d)).map
            (fun vd => vd.downloads)).sum))
    ∧ (d ∉ dates →
      mapFind? (get_crate_downloads_multi (.ok ⟨events⟩) dates) d = none) := by
  constructor <;> intro h <;>
    simp [get_crate_downloads_multi, mapFind?_foldInsert, h, version_downloads_on,
      foldl_add_map, mapFind?_nil]

/-- Witness for C1 at the spec's scenario: window of 3 consecutive days
(encoded 1, 2, 3) and events (v1, day 1, 5), (v2, day 1, 3), (v1, day 2, 0):
the aggregate maps day 1 to 8, days 2 and 3 to 0, and day 4 (outside the
window) to nothing. -/
theorem C1_multi_aggregation_witness :
    mapFind? (get_crate_downloads_multi
      (.ok ⟨[⟨"v1", 1, 5⟩, ⟨"v2", 1, 3⟩, ⟨"v1", 2, 0⟩]⟩) [1, 2, 3]) 1 = some 8
    ∧ mapFind? (get_crate_downloads_multi
      (.ok ⟨[⟨"v1", 1, 5⟩, ⟨"v2", 1, 3⟩, ⟨"v1", 2, 0⟩]⟩) [1, 2, 3]) 2 = some 0
    ∧ mapFind? (get_crate_downloads_multi
      (.ok ⟨[⟨"v1", 1, 5⟩, ⟨"v2", 1, 3⟩, ⟨"v1", 2, 0⟩]⟩) [1, 2, 3]) 3 = some 0
    ∧ mapFind? (get_crate_downloads_multi
      (.ok ⟨[⟨"v1", 1, 5⟩, ⟨"v2", 1, 3⟩, ⟨"v1", 2, 0⟩]⟩) [1, 2, 3]) 4 = none := by
  refine ⟨?_, ?_, ?_, ?_⟩
  · rw [(C1_multi_aggregation [⟨"v1", 1, 5⟩, ⟨"v2", 1, 3⟩, ⟨"v1", 2, 0⟩] [1, 2, 3] 1).1
      (by decide)]
    decide
  · rw [(C1_multi_aggregation [⟨"v1", 1, 5⟩, ⟨"v2", 1, 3⟩, ⟨"v1", 2, 0⟩] [1, 2, 3] 2).1
      (by decide)]
    decide
  · rw [(C1_multi_aggregation [⟨"v1", 1, 5⟩, ⟨"v2", 1, 3⟩, ⟨"v1", 2, 0⟩] [1, 2, 3] 3).1
      (by decide)]
    decide
  · exact (C1_multi_aggregation [⟨"v1", 1, 5⟩, ⟨"v2", 1, 3⟩, ⟨"v1", 2, 0⟩] [1, 2, 3] 4).2
      (by decide)

/-- C7 counterexample: the per-date grouping of `handle_crate_option` merges
only consecutive runs of equal-date records, so two permutations of the same
three events (two of which share date 1 non-adjacently) yield different
groupings, and the non-adjacent pair is not summed. -/
theorem C7_counterexample :
    ([⟨"v1", 1, 1⟩, ⟨"v2", 2, 2⟩, ⟨"v3", 1, 3⟩] : List VersionDownload).Perm
      [⟨"v1", 1, 1⟩, ⟨"v3", 1, 3⟩, ⟨"v2", 2, 2⟩]
    ∧ version_downloads_grouped [⟨"v1", 1, 1⟩, ⟨"v2", 2, 2⟩, ⟨"v3", 1, 3⟩]
        = [(1, 1), (2, 2), (1, 3)]
    ∧ version_downloads_grouped [⟨"v1", 1, 1⟩, ⟨"v3", 1, 3⟩, ⟨"v2", 2, 2⟩]
        = [(1, 4), (2, 2)] := by
  refine ⟨by decide, by decide, by decide⟩

theorem foldInsert_congr {α β : Type} [DecidableEq α] (keys : List α)
    (F G : α → β) (m0 : List (α × β)) (h : ∀ k, F k = G k) :
    keys.foldl (fun m x => mapInsert m x (F x)) m0
      = keys.foldl (fun m x => mapInsert m x (G x)) m0 := by
  induction keys generalizing m0 with
  | nil => rfl
  | cons x xs ih =>
    simp only [List.foldl_cons, h x]
    exact ih _

/-- C7 (amended): the multi-date aggregator `get_crate_downloads_multi` does
not assume its events sorted — its result is invariant under any permutation
of the event list — and sums every equal-date record, adjacent or not; the
consecutive-run grouping of `handle_crate_option` has neither property (see
the counterexample). -/
theorem C7_multi_order_insensitive (evs evs' : List VersionDownload)
    (dates : List Int) (d : Int) (hperm : evs.Perm evs') (hd : d ∈ dates) :
    get_crate_downloads_multi (.ok ⟨evs⟩) dates
      = get_crate_downloads_multi (.ok ⟨evs'⟩) dates
    ∧ mapFind? (get_crate_downloads_multi (.ok ⟨evs⟩) dates) d
        = some (((evs.filter (fun vd => vd.date == d)).map
            (fun vd => vd.downloads)).sum) := by
  constructor
  · refine foldInsert_congr dates _ _ [] (fun k => ?_)
    simp only [version_downloads_on, foldl_add_map, Nat.zero_add]
    exact ((hperm.filter (fun vd => vd.date == k)).map (fun vd => vd.downloads)).sum_eq
  · exact (C1_multi_aggregation evs dates d).1 hd

/-- Witness for C7 (amended) at a concrete permutation: reordering the three
events does not change the aggregate over the window [1, 2], and day 1 sums
the two non-adjacent records to 4. -/
theorem C7_multi_order_insensitive_witness :
    get_crate_downloads_multi (.ok ⟨[⟨"v1", 1, 1⟩, ⟨"v2", 2, 2⟩, ⟨"v3", 1, 3⟩]⟩) [1, 2]
      = get_crate_downloads_multi (.ok ⟨[⟨"v1", 1, 1⟩, ⟨"v3", 1, 3⟩, ⟨"v2", 2, 2⟩]⟩) [1, 2]
    ∧ mapFind? (get_crate_downloads_multi
        (.ok ⟨[⟨"v1", 1, 1⟩, ⟨"v2", 2, 2⟩, ⟨"v3", 1, 3⟩]⟩) [1, 2]) 1 = some 4 := by
  have h := C7_multi_order_insensitive
    [⟨"v1", 1, 1⟩, ⟨"v2", 2, 2⟩, ⟨"v3", 1, 3⟩]
    [⟨"v1", 1, 1⟩, ⟨"v3", 1, 3⟩, ⟨"v2", 2, 2⟩] [1, 2] 1 (by decide) (by decide)
  refine ⟨h.1, ?_⟩
  rw [h.2]
  decide

/-- `main.rs` lines 173-191: the buffered fetch loop of `handle_user_option`.
Each spawned task calls `get_crate_downloads_multi` for its crate and inserts
the result into the shared map under the crate's name. The `order` argument
is the sequence in which the tasks perform their insert (any completion order
of the `buffer_unordered(3)` pool); the map after the join-all barrier is the
fold of those inserts. -/
def user_fetch_all (order : List String) (dates : List Int)
    (fetch_one : String → Except FetchError CrateDownloads) : DailyMap :=
  order.foldl
    (fun m name => mapInsert m name (get_crate_downloads_multi (fetch_one name) dates))
    []

theorem user_fetch_all_find? (order : List String) (dates : List Int)
    (fetch_one : String → Except FetchError CrateDownloads) (name : String) :
    mapFind? (user_fetch_all order dates fetch_one) name
      = if name ∈ order
          then some (get_crate_downloads_multi (fetch_one name) dates)
          else none := by
  rw [user_fetch_all,
    mapFind?_foldInsert order (fun n => get_crate_downloads_multi (fetch_one n) dates)]
  rfl

/-- C2: for any list of distinct crate names, any window and any per-crate
fetch outcome (successes or failures in any combination), the scheduler's
result map has exactly one key per requested crate: its key set is the set of
requested names and its key count is the number of requests. -/
theorem C2_scheduler_completeness (ids : List String) (dates : List Int)
    (fetch_one : String → Except FetchError CrateDownloads) (h : ids.Nodup) :
    (mapKeys (user_fetch_all ids dates fetch_one)).length = ids.length
    ∧ ∀ name, name ∈ mapKeys (user_fetch_all ids dates fetch_one) ↔ name ∈ ids := by
  have hmem : ∀ name, name ∈ mapKeys (user_fetch_all ids dates fetch_one) ↔ name ∈ ids := by
    intro name
    rw [mem_mapKeys_iff, user_fetch_all_find?]
    by_cases hm : name ∈ ids <;> simp [hm]
  refine ⟨?_, hmem⟩
  have hnodup : (mapKeys (user_fetch_all ids dates fetch_one)).Nodup :=
    mapKeys_nodup_foldInsert ids _ [] (by simp [mapKeys])
  exact ((List.perm_ext_iff_of_nodup hnodup h).mpr hmem).length_eq

/-- Witness for C2 with two distinct crates, one of which fails to fetch. -/
theorem C2_scheduler_completeness_witness :
    (mapKeys (user_fetch_all ["a", "b"] [1]
      (fun n => if n = "a" then .error .network else .ok ⟨[]⟩))).length = 2 :=
  (C2_scheduler_completeness ["a", "b"] [1]
    (fun n => if n = "a" then .error .network else .ok ⟨[]⟩) (by decide)).1

/-- C3: when `fetch_one` fails for a crate, the task for that crate still
inserts a result — the map produced by `get_crate_downloads_multi` on the
error, in which every window date is present and maps to 0 — the error is
absorbed inside the task rather than propagated, and every other crate's
entry is exactly what it would be under any fetch function agreeing outside
the failing crate (in particular one where that crate succeeds). -/
theorem C3_failure_isolation (ids : List String) (dates : List Int)
    (fetch_one : String → Except FetchError CrateDownloads) (name : String)
    (err : FetchError) (hmem : name ∈ ids) (herr : fetch_one name = .error err) :
    mapFind? (user_fetch_all ids dates fetch_one) name
      = some (get_crate_downloads_multi (.error err) dates)
    ∧ (∀ d ∈ dates,
        mapFind? (get_crate_downloads_multi (.error err) dates) d = some 0)
    ∧ (∀ fetch_one' : String → Except FetchError CrateDownloads,
        (∀ x, x ≠ name → fetch_one' x = fetch_one x) →
        ∀ other, other ≠ name →
          mapFind? (user_fetch_all ids dates fetch_one') other
            = mapFind? (user_fetch_all ids dates fetch_one) other) := by
  refine ⟨?_, ?_, ?_⟩
  · rw [user_fetch_all_find?, if_pos hmem, herr]
  · intro d hd
    rw [get_crate_downloads_multi,
      mapFind?_foldInsert dates (version_downloads_on (.error err)), if_pos hd]
    rfl
  · intro fetch_one' hagree other hother
    rw [user_fetch_all_find?, user_fetch_all_find?, hagree other hother]

/-- Witness for C3: crate "a" fails with a network error among ["a", "b"];
its entry is the all-zero map over the window [1, 2] with both dates present,
and crate "b"'s entry is unchanged when "a" is made to succeed. -/
theorem C3_failure_isolation_witness :
    mapFind? (user_fetch_all ["a", "b"] [1, 2]
        (fun n => if n = "a" then .error .network else .ok ⟨[⟨"v", 1, 7⟩]⟩)) "a"
      = some (get_crate_downloads_multi (.error .network) [1, 2])
    ∧ mapFind? (get_crate_downloads_multi (.error .network) [1, 2]) 1 = some 0
    ∧ mapFind? (user_fetch_all ["a", "b"] [1, 2]
        (fun n => if n = "a" then .ok ⟨[]⟩ else .ok ⟨[⟨"v", 1, 7⟩]⟩)) "b"
      = mapFind? (user_fetch_all ["a", "b"] [1, 2]
        (fun n => if n = "a" then .error .network else .ok ⟨[⟨"v", 1, 7⟩]⟩)) "b" := by
  have h := C3_failure_isolation ["a", "b"] [1, 2]
    (fun n => if n = "a" then .error .network else .ok ⟨[⟨"v", 1, 7⟩]⟩) "a"
    .network (by decide) rfl
  exact ⟨h.1, h.2.1 1 (by decide),
    h.2.2 (fun n => if n = "a" then .ok ⟨[]⟩ else .ok ⟨[⟨"v", 1, 7⟩]⟩)
      (fun x hx => by simp [if_neg hx]) "b" (by decide)⟩

/-- Abstraction of `date.format("%Y-%m-%d")` and of `Cell::new` rendering: the
textual label of a model date (injective, order-irrelevant downstream). -/
def format_ymd (d : Int) : String := toString d

/-- `main.rs` lines 303-306: the all-zero fallback map over the window. -/
def default_zero_hash (days : List Int) : DateMap :=
  days.foldl (fun m day => mapInsert m day 0) []

/-- `main.rs` lines 319-325: the cell lookup of a data row — the crate's map
(falling back to `default_zero_hash`) queried at the day, defaulting to 0. -/
def row_value (daily : DailyMap) (days : List Int) (c : Crate) (day : Int) : Nat :=
  mapFindD ((mapFind? daily c.name).getD (default_zero_hash days)) day 0

/-- `main.rs` lines 298-301: table header — two fixed labels then one label
per window day. -/
def header_vec (days : List Int) : List String :=
  ["Crate Name", "Download Count"] ++ days.map format_ymd

/-- `main.rs` lines 312-329: one data row — crate name, lifetime downloads,
then one cell per window day. -/
def crate_row (daily : DailyMap) (days : List Int) (c : Crate) : List String :=
  [c.name, toString c.downloads]
    ++ days.map (fun day => toString (row_value daily days c day))

/-- `main.rs` lines 335-353: the synthetic totals row — the "Total" label, the
fold of the crates' lifetime downloads, then for each window day the sum over
the result map's values of that day's count (0 when absent). -/
def totals_row (crates : List Crate) (daily : DailyMap) (days : List Int) :
    List String :=
  ["Total", toString (crates.foldl (fun init c => init + c.downloads) 0)]
    ++ days.map (fun day =>
        toString ((mapValues daily).map (fun dm => mapFindD dm day 0)).sum)

/-- `print_crates_table` as a grid: header, one row per crate in listing
order, then the totals row. -/
def crates_table (crates : List Crate) (daily : DailyMap) (days : List Int) :
    List (List String) :=
  header_vec days :: (crates.map (crate_row daily days) ++ [totals_row crates daily days])

theorem crate_row_length (daily : DailyMap) (days : List Int) (c : Crate) :
    (crate_row daily days c).length = 2 + days.length := by
  simp [crate_row]
  omega

theorem totals_row_length (crates : List Crate) (daily : DailyMap) (days : List Int) :
    (totals_row crates daily days).length = 2 + days.length := by
  simp [totals_row]
  omega

theorem crates_table_row_length (crates : List Crate) (daily : DailyMap)
    (days : List Int) (row : List String) (h : row ∈ crates_table crates daily days) :
    row.length = 2 + days.length := by
  rw [crates_table, List.mem_cons, List.mem_append] at h
  rcases h with h | h | h
  · subst h; simp [header_vec]; omega
  · rw [List.mem_map] at h
    obtain ⟨c, _, hc⟩ := h
    rw [← hc, crate_row_length]
  · rw [List.mem_singleton] at h
    rw [h, totals_row_length]

theorem cons_cons_getElem? (a b : String) (l : List String) (j : Nat) :
    (a :: b :: l)[j + 2]? = l[j]? := by
  rw [show j + 2 = j + 1 + 1 from rfl, List.getElem?_cons_succ, List.getElem?_cons_succ]

/-- C9: every row of the grid (header, each data row, the totals row) has
exactly 2 + |window| cells; the date cell at offset j of any data row and of
the totals row is the value for the j-th window day (columns follow the
window's chronological order); and the i-th data row is the row of the i-th
crate of the input listing, not of any completion order. -/
theorem C9_grid_shape (crates : List Crate) (daily : DailyMap) (days : List Int) :
    (∀ row ∈ crates_table crates daily days, row.length = 2 + days.length)
    ∧ (∀ j d, days[j]? = some d →
        (∀ c : Crate, (crate_row daily days c)[j + 2]?
            = some (toString (row_value daily days c d)))
        ∧ (totals_row crates daily days)[j + 2]?
            = some (toString ((mapValues daily).map (fun dm => mapFindD dm d 0)).sum))
    ∧ (∀ (i : Nat) (c : Crate), crates[i]? = some c →
        (crates_table crates daily days)[i + 1]? = some (crate_row daily days c)) := by
  refine ⟨crates_table_row_length crates daily days, ?_, ?_⟩
  · intro j d hjd
    constructor
    · intro c
      show ((crate_row daily days c))[j + 2]? = _
      rw [crate_row, List.cons_append, List.cons_append, List.nil_append,
        cons_cons_getElem?, List.getElem?_map, hjd, Option.map_some']
    · rw [totals_row, List.cons_append, List.cons_append, List.nil_append,
        cons_cons_getElem?, List.getElem?_map, hjd, Option.map_some']
  · intro i c hic
    have hlt : i < crates.length := (List.getElem?_eq_some.mp hic).1
    have hlt2 : i < (crates.map (crate_row daily days)).length := by
      rw [List.length_map]; exact hlt
    rw [crates_table, List.getElem?_cons_succ, List.getElem?_append_left hlt2,
      List.getElem?_map, hic, Option.map_some']

/-- Witness for C9 with one crate, a one-day window and an unrelated map key:
the totals row has 3 cells, the data row sits at index 1 and its date cell
holds the crate's day-1 value. -/
theorem C9_grid_shape_witness :
    (totals_row [⟨"A", 7⟩] [("B", [((1 : Int), 9)])] [1]).length = 2 + 1
    ∧ (crates_table [⟨"A", 7⟩] [("B", [((1 : Int), 9)])] [1])[1]?
        = some (crate_row [("B", [((1 : Int), 9)])] [1] ⟨"A", 7⟩)
    ∧ (crate_row [("B", [((1 : Int), 9)])] [1] ⟨"A", 7⟩)[2]?
        = some (toString (row_value [("B", [((1 : Int), 9)])] [1] ⟨"A", 7⟩ 1)) := by
  have h := C9_grid_shape [⟨"A", 7⟩] [("B", [((1 : Int), 9)])] [1]
  exact ⟨h.1 _ (by simp [crates_table]), h.2.2 0 ⟨"A", 7⟩ rfl, (h.2.1 0 1 rfl).1 ⟨"A", 7⟩⟩

theorem mapFindD_default_zero (days : List Int) (d : Int) :
    mapFindD (default_zero_hash days) d 0 = 0 := by
  rw [mapFindD, default_zero_hash, mapFind?_foldInsert days (fun _ => 0)]
  split <;> rfl

theorem row_value_eq_elim (daily : DailyMap) (days : List Int) (c : Crate) (d : Int) :
    row_value daily days c d
      = (mapFind? daily c.name).elim 0 (fun dm => mapFindD dm d 0) := by
  rw [row_value]
  cases h : mapFind? daily c.name with
  | none => simp [mapFindD_default_zero]
  | some dm => rfl

theorem rows_sum_cons_not_mem (cs : List Crate) (k : String) (dm : DateMap)
    (rest : DailyMap) (d : Int) (hnot : k ∉ cs.map (fun c => c.name)) :
    (cs.map (fun c =>
        (mapFind? ((k, dm) :: rest) c.name).elim 0 (fun m => mapFindD m d 0))).sum
      = (cs.map (fun c =>
          (mapFind? rest c.name).elim 0 (fun m => mapFindD m d 0))).sum := by
  induction cs with
  | nil => rfl
  | cons c cs ih =>
    rw [List.map_cons, List.mem_cons] at hnot
    push_neg at hnot
    obtain ⟨h1, h2⟩ := hnot
    rw [List.map_cons, List.map_cons, List.sum_cons, List.sum_cons, ih h2,
      mapFind?_cons, if_neg h1]

theorem rows_sum_cons_mem (cs : List Crate) (k : String) (dm : DateMap)
    (rest : DailyMap) (d : Int)
    (hnodup : (cs.map (fun c => c.name)).Nodup)
    (hk : k ∈ cs.map (fun c => c.name))
    (hrest : mapFind? rest k = none) :
    (cs.map (fun c =>
        (mapFind? ((k, dm) :: rest) c.name).elim 0 (fun m => mapFindD m d 0))).sum
      = mapFindD dm d 0
        + (cs.map (fun c =>
            (mapFind? rest c.name).elim 0 (fun m => mapFindD m d 0))).sum := by
  induction cs with
  | nil => simp at hk
  | cons c cs ih =>
    rw [List.map_cons, List.nodup_cons] at hnodup
    obtain ⟨hcn, hnd⟩ := hnodup
    rw [List.map_cons, List.mem_cons] at hk
    by_cases hck : k = c.name
    · have hknotcs : k ∉ cs.map (fun c => c.name) := by rw [hck]; exact hcn
      have hrc : mapFind? rest c.name = none := by rw [← hck]; exact hrest
      rw [List.map_cons, List.map_cons, List.sum_cons, List.sum_cons,
        rows_sum_cons_not_mem cs k dm rest d hknotcs,
        mapFind?_cons, if_pos hck, hrc]
      simp
    · have hkcs : k ∈ cs.map (fun c => c.name) := hk.resolve_left fun hh => hck hh
      rw [List.map_cons, List.map_cons, List.sum_cons, List.sum_cons, ih hnd hkcs,
        mapFind?_cons, if_neg hck]
      omega

theorem values_sum_eq_rows_sum (daily : DailyMap) (crates : List Crate) (d : Int)
    (hnames : (crates.map (fun c => c.name)).Nodup)
    (hkeys : (mapKeys daily).Nodup)
    (hsub : ∀ k ∈ mapKeys daily, k ∈ crates.map (fun c => c.name)) :
    ((mapValues daily).map (fun dm => mapFindD dm d 0)).sum
      = (crates.map (fun c =>
          (mapFind? daily c.name).elim 0 (fun m => mapFindD m d 0))).sum := by
  induction daily with
  | nil =>
    symm
    apply List.sum_eq_zero
    intro x hx
    rw [List.mem_map] at hx
    obtain ⟨c, _, hc⟩ := hx
    rw [mapFind?_nil] at hc
    exact hc.symm
  | cons e rest ih =>
    rcases e with ⟨k, dm⟩
    have hkeys' : k ∉ mapKeys rest ∧ (mapKeys rest).Nodup := by
      rw [mapKeys, List.map_cons, List.nodup_cons] at hkeys
      exact hkeys
    have hsub' : ∀ x ∈ mapKeys rest, x ∈ crates.map (fun c => c.name) := by
      intro x hx
      exact hsub x (by rw [mapKeys, List.map_cons]; exact List.mem_cons_of_mem _ hx)
    have hkc : k ∈ crates.map (fun c => c.name) :=
      hsub k (by rw [mapKeys, List.map_cons]; exact List.mem_cons_self _ _)
    have hrest : mapFind? rest k = none := by
      by_cases hn : mapFind? rest k = none
      · exact hn
      · exact absurd ((mem_mapKeys_iff rest k).mpr hn) hkeys'.1
    rw [show mapValues ((k, dm) :: rest) = dm :: mapValues rest from rfl,
      List.map_cons, List.sum_cons, ih hkeys'.2 hsub',
      rows_sum_cons_mem crates k dm rest d hnames hkc hrest]

/-- C4 counterexample: `print_crates_table` sums the date column of the totals
row over the values of the daily-downloads map, not over the package rows;
with no package rows and a map entry under the unrelated key "X", the day-0
totals cell shows 5 while the sum over the (zero) package rows is 0. -/
theorem C4_counterexample :
    (totals_row [] [("X", [((0 : Int), 5)])] [0])[2]?
      ≠ some (toString ((([] : List Crate).map
          (fun c => row_value [("X", [((0 : Int), 5)])] [0] c 0)).sum)) := by
  decide

/-- C4 (amended): provided the summary names are distinct and every key of
the daily-downloads map is the name of some summary (both guaranteed by the
caller `handle_user_option`, whose map keys are exactly the fetched crate
names), the totals row's lifetime cell is the sum of the rows' lifetime
downloads, and its cell for the j-th window day is the sum over all package
rows of that row's value at that day. -/
theorem C4_totals_row (crates : List Crate) (daily : DailyMap) (days : List Int)
    (hnames : (crates.map (fun c => c.name)).Nodup)
    (hkeys : (mapKeys daily).Nodup)
    (hsub : ∀ k ∈ mapKeys daily, k ∈ crates.map (fun c => c.name)) :
    (totals_row crates daily days)[1]?
        = some (toString ((crates.map (fun c => c.downloads)).sum))
    ∧ ∀ j d, days[j]? = some d →
        (totals_row crates daily days)[j + 2]?
          = some (toString ((crates.map (fun c => row_value daily days c d)).sum)) := by
  constructor
  · have hsum : crates.foldl (fun init c => init + c.downloads) 0
        = (crates.map (fun c => c.downloads)).sum := by
      rw [foldl_add_map]
      simp
    simp [totals_row, hsum]
  · intro j d hjd
    rw [totals_row, List.cons_append, List.cons_append, List.nil_append,
      cons_cons_getElem?, List.getElem?_map, hjd, Option.map_some']
    have hrw : (crates.map (fun c => row_value daily days c d)).sum
        = (crates.map (fun c =>
            (mapFind? daily c.name).elim 0 (fun m => mapFindD m d 0))).sum := by
      simp only [row_value_eq_elim]
    rw [hrw, ← values_sum_eq_rows_sum daily crates d hnames hkeys hsub]

/-- Witness for C4 (amended) at the spec's scenario: packages A (lifetime 100)
and B (lifetime 50) with daily downloads A ↦ 10 and B ↦ 5 on the single
window day: the totals row reads lifetime 150 and 15 for the day. -/
theorem C4_totals_row_witness :
    (totals_row [⟨"A", 100⟩, ⟨"B", 50⟩]
        [("A", [((1 : Int), 10)]), ("B", [((1 : Int), 5)])] [1])[1]? = some "150"
    ∧ (totals_row [⟨"A", 100⟩, ⟨"B", 50⟩]
        [("A", [((1 : Int), 10)]), ("B", [((1 : Int), 5)])] [1])[2]? = some "15" := by
  have h := C4_totals_row [⟨"A", 100⟩, ⟨"B", 50⟩]
    [("A", [((1 : Int), 10)]), ("B", [((1 : Int), 5)])] [1]
    (by decide) (by decide) (by decide)
  refine ⟨?_, ?_⟩
  · rw [h.1]; decide
  · rw [h.2 0 1 rfl]; decide

/-- C6 (amended): a requested window length of 0 is accepted, not rejected:
`last_n_day` passes 0 through, the days-building loop yields the empty window,
and the report is still produced — every grid row then has exactly the two
fixed columns. No error of any kind is raised. -/
theorem C6_zero_window (today : Int) (crates : List Crate) (daily : DailyMap) :
    window_for_option (some 0) today = []
    ∧ (crates_table crates daily (window_for_option (some 0) today)).all
        (fun row => row.length == 2) = true := by
  refine ⟨rfl, ?_⟩
  rw [List.all_eq_true]
  intro row hrow
  have h := crates_table_row_length crates daily (window_for_option (some 0) today)
    row hrow
  simp [h]
  rfl

theorem foldInsert_entry_eq {α β : Type} [DecidableEq α] (keys : List α) (F : α → β)
    (m0 : List (α × β)) (h0 : ∀ e ∈ m0, e.2 = F e.1) :
    ∀ e ∈ keys.foldl (fun m x => mapInsert m x (F x)) m0, e.2 = F e.1 := by
  induction keys generalizing m0 with
  | nil => exact h0
  | cons x xs ih =>
    rw [List.foldl_cons]
    refine ih _ ?_
    intro e he
    rw [mapInsert] at he
    rcases List.mem_cons.mp he with he | he
    · rw [he]
    · exact h0 e (List.mem_of_mem_filter he)

theorem entries_eq_keys_map {α β : Type} (l : List (α × β)) (F : α → β)
    (h : ∀ e ∈ l, e.2 = F e.1) :
    l = (mapKeys l).map (fun k => (k, F k)) := by
  induction l with
  | nil => rfl
  | cons e rest ih =>
    rw [mapKeys, List.map_cons, List.map_cons]
    have hval := h e (List.mem_cons_self _ _)
    have he : e = (e.1, F e.1) := by rw [← hval]
    have hk : List.map Prod.fst rest = mapKeys rest := rfl
    rw [← he, hk, ← ih (fun x hx => h x (List.mem_cons_of_mem _ hx))]

/-- The scheduler maps produced under two completion orders are permutations
of each other as entry lists: every entry is determined by its key, the key
sets agree and both are duplicate-free. -/
theorem user_fetch_all_perm (ids order : List String) (dates : List Int)
    (fetch_one : String → Except FetchError CrateDownloads) (h : order.Perm ids) :
    (user_fetch_all order dates fetch_one).Perm (user_fetch_all ids dates fetch_one) := by
  have hker : (mapKeys (user_fetch_all order dates fetch_one)).Perm
      (mapKeys (user_fetch_all ids dates fetch_one)) := by
    refine (List.perm_ext_iff_of_nodup ?_ ?_).mpr ?_
    · exact mapKeys_nodup_foldInsert order _ [] (by simp [mapKeys])
    · exact mapKeys_nodup_foldInsert ids _ [] (by simp [mapKeys])
    · intro k
      rw [mem_mapKeys_iff, mem_mapKeys_iff, user_fetch_all_find?, user_fetch_all_find?]
      have ho : k ∈ order ↔ k ∈ ids := h.mem_iff
      by_cases hm : k ∈ ids <;> simp [hm, ho]
  have e1 := entries_eq_keys_map (user_fetch_all order dates fetch_one)
    (fun name => get_crate_downloads_multi (fetch_one name) dates)
    (foldInsert_entry_eq order _ [] (fun e he => absurd he (List.not_mem_nil e)))
  have e2 := entries_eq_keys_map (user_fetch_all ids dates fetch_one)
    (fun name => get_crate_downloads_multi (fetch_one name) dates)
    (foldInsert_entry_eq ids _ [] (fun e he => absurd he (List.not_mem_nil e)))
  have hmapped :=
    hker.map (fun k => (k, get_crate_downloads_multi (fetch_one k) dates))
  rw [← e1, ← e2] at hmapped
  exact hmapped

theorem crate_row_congr (daily1 daily2 : DailyMap) (days : List Int) (c : Crate)
    (hfind : ∀ k, mapFind? daily1 k = mapFind? daily2 k) :
    crate_row daily1 days c = crate_row daily2 days c := by
  have hv : (fun day => toString (row_value daily1 days c day))
      = (fun day => toString (row_value daily2 days c day)) := by
    funext day
    rw [row_value, row_value, hfind c.name]
  rw [crate_row, crate_row, hv]

theorem totals_row_congr (crates : List Crate) (daily1 daily2 : DailyMap)
    (days : List Int) (hperm : daily1.Perm daily2) :
    totals_row crates daily1 days = totals_row crates daily2 days := by
  have hv : (fun day => toString ((mapValues daily1).map (fun dm => mapFindD dm day 0)).sum)
      = (fun day => toString ((mapValues daily2).map (fun dm => mapFindD dm day 0)).sum) := by
    funext day
    rw [mapValues, mapValues,
      ((hperm.map Prod.snd).map (fun dm => mapFindD dm day 0)).sum_eq]
  rw [totals_row, totals_row, hv]

theorem crates_table_congr (crates : List Crate) (daily1 daily2 : DailyMap)
    (days : List Int) (hfind : ∀ k, mapFind? daily1 k = mapFind? daily2 k)
    (hperm : daily1.Perm daily2) :
    crates_table crates daily1 days = crates_table crates daily2 days := by
  have hr : crate_row daily1 days = crate_row daily2 days := by
    funext c
    exact crate_row_congr daily1 daily2 days c hfind
  rw [crates_table, crates_table, totals_row_congr crates daily1 daily2 days hperm, hr]

/-- C8: the final per-crate mapping and the final grid are both deterministic
functions of the crate list, the window and the pure fetch results,
independent of task completion order and hence of the concurrency ceiling:
for any completion order of the concurrent pool (any permutation of the crate
list — in particular the strictly sequential order of concurrency 1), every
lookup in the final map is identical and the assembled report grid is
identical to that of the sequential fetch-and-aggregate. -/
theorem C8_order_independence (ids order : List String) (dates : List Int)
    (fetch_one : String → Except FetchError CrateDownloads)
    (h : order.Perm ids) (name : String) (crates : List Crate) :
    mapFind? (user_fetch_all order dates fetch_one) name
      = mapFind? (user_fetch_all ids dates fetch_one) name
    ∧ crates_table crates (user_fetch_all order dates fetch_one) dates
      = crates_table crates (user_fetch_all ids dates fetch_one) dates := by
  have hfind : ∀ k, mapFind? (user_fetch_all order dates fetch_one) k
      = mapFind? (user_fetch_all ids dates fetch_one) k := by
    intro k
    rw [user_fetch_all_find?, user_fetch_all_find?]
    by_cases hm : k ∈ ids
    · rw [if_pos hm, if_pos (h.mem_iff.mpr hm)]
    · rw [if_neg hm, if_neg fun hc => hm (h.mem_iff.mp hc)]
  exact ⟨hfind name,
    crates_table_congr crates _ _ dates hfind
      (user_fetch_all_perm ids order dates fetch_one h)⟩

/-- Witness for C8: a reversed completion order of two crates (one failing)
yields the same lookup for crate "a" and the identical report grid as the
sequential order. -/
theorem C8_order_independence_witness :
    mapFind? (user_fetch_all ["b", "a"] [1]
        (fun n => if n = "a" then .ok ⟨[⟨"v", 1, 5⟩]⟩ else .error .rate_limited)) "a"
      = mapFind? (user_fetch_all ["a", "b"] [1]
        (fun n => if n = "a" then .ok ⟨[⟨"v", 1, 5⟩]⟩ else .error .rate_limited)) "a"
    ∧ crates_table [⟨"a", 10⟩, ⟨"b", 20⟩] (user_fetch_all ["b", "a"] [1]
        (fun n => if n = "a" then .ok ⟨[⟨"v", 1, 5⟩]⟩ else .error .rate_limited)) [1]
      = crates_table [⟨"a", 10⟩, ⟨"b", 20⟩] (user_fetch_all ["a", "b"] [1]
        (fun n => if n = "a" then .ok ⟨[⟨"v", 1, 5⟩]⟩ else .error .rate_limited)) [1] :=
  C8_order_independence ["a", "b"] ["b", "a"] [1]
    (fun n => if n = "a" then .ok ⟨[⟨"v", 1, 5⟩]⟩ else .error .rate_limited)
    (by decide) "a" [⟨"a", 10⟩, ⟨"b", 20⟩]

/-- Outcome of the output-shape dispatch of `handle_user_option`
(`main.rs` lines 194-208). Selecting "g" reaches
`todo!("implement graph output")`, which panics; the panic is modelled as a
dedicated constructor carrying the `todo!` message. -/
inductive UserReport
  | unimplemented_graph_panic (msg : String)
  | table (rows : List (List String))
deriving DecidableEq

/-- `main.rs` lines 194-208: `output_type.unwrap_or("t") == "g"` selects the
graph branch (the `todo!` panic); anything else prints the crates table. -/
def user_report (output_type : Option String) (crates : List Crate)
    (daily : DailyMap) (days : List Int) : UserReport :=
  if output_type.getD "t" = "g" then
    .unimplemented_graph_panic "implement graph output"
  else
    .table (crates_table crates daily days)

/-- Outcome of the output-shape dispatch of `handle_crate_option`
(`main.rs` lines 225-265): a sparkline plot, the per-date table with the
lifetime total, or the "Failed to get downloads" message on a fetch error. -/
inductive CrateReport
  | sparkline (values : List Nat) (caption : String)
  | table (rows : List (String × Nat)) (total : Nat)
  | fetch_failed
deriving DecidableEq

/-- `main.rs` lines 225-265: `handle_crate_option` after the two client
calls — group the raw records by consecutive date, then dispatch on the
output shape ("g" plots the counts with a caption, otherwise the table of
formatted date and count is printed with the lifetime total). -/
def crate_report (output_type : Option String) (crate_name : String)
    (total : Nat) (crate_downloads : Except FetchError CrateDownloads) :
    CrateReport :=
  match crate_downloads with
  | .ok downloads =>
      let version_downloads := version_downloads_grouped downloads.version_downloads
      if output_type.getD "t" = "g" then
        .sparkline (version_downloads.map (fun vd => vd.2))
          (crate_name ++ " total downloads " ++ toString total)
      else
        .table (version_downloads.map (fun t => (format_ymd t.1, t.2))) total
  | .error _ => .fetch_failed

/-- C10 (code evidence): in publisher mode the sparkline shape is NOT
supported — for every input, selecting "g" lands on the
`todo!("implement graph output")` panic — while the default shape is tabular;
single-crate mode does support both shapes. -/
theorem C10_user_graph_unimplemented (crates : List Crate) (daily : DailyMap)
    (days : List Int) (crate_name : String) (total : Nat) (cdl : CrateDownloads) :
    user_report (some "g") crates daily days
      = .unimplemented_graph_panic "implement graph output"
    ∧ user_report none crates daily days = .table (crates_table crates daily days)
    ∧ crate_report (some "g") crate_name total (.ok cdl)
        = .sparkline
            ((version_downloads_grouped cdl.version_downloads).map (fun vd => vd.2))
            (crate_name ++ " total downloads " ++ toString total)
    ∧ crate_report none crate_name total (.ok cdl)
        = .table ((version_downloads_grouped cdl.version_downloads).map
            (fun t => (format_ymd t.1, t.2))) total := by
  refine ⟨?_, rfl, ?_, rfl⟩
  · rw [user_report, if_pos (show (some "g").getD "t" = "g" from rfl)]
  · rw [crate_report]
    exact if_pos (show (some "g").getD "t" = "g" from rfl)

end Crabst
